import Mathlib

/-!
# Loan payoff simulation: embedding of `MainWindow.cpp`

The C++ program works on `double`.  The embedding idealises `double` as an ordered field
with exact arithmetic: the selection and retirement code, which only compares numbers, is
written over an arbitrary linearly ordered field, and the loan formulas and the body of the
simulation loop, which call `std::exp` and `std::log`, are written over the real numbers.

A `double` operation whose result is not a finite number (division by zero, logarithm of a
non-positive number: IEEE infinity or NaN) is modelled by `none`; the loan formulas therefore
return `Option ℝ`, and the loop body of the embedding stops with `none` as soon as such a
value appears.

Exact arithmetic leaves out rounding, overflow and underflow.  The results below are
therefore of two kinds only: facts about the code that compares numbers (`pickPriority`, the
removal pass), and evaluations of the formulas and of one pass of the loop at concrete
inputs, where every comparison that decides the outcome has a margin far above the rounding
error of `double`, and at the rate zero, where the code divides by zero.  The general
lemmas about the formulas are lemmas about the exact formulas and serve these evaluations
only; what the formulas do on `double` for all inputs is not stated here, since that depends
on the rounding and the range of `double`.

`QVector` and `std::vector` are lists in index order; `push_back` appends at the end and
`back()` reads the last element.
-/

namespace LoanPayoff

/-! ## Data model (`MainWindow.hpp`) -/

/-- The enumeration `PayMethod`. -/
inductive PayMethod where
  | principleFirst
  | interestFirst

/-- The record `LoanData`. -/
structure LoanData (α : Type) where
  principle : α
  mpr : α
  period : ℕ
  minimum : α

section Selection

variable {α : Type} [LinearOrderedField α]

/-- The element `loans[ i ]`.  Every index the program uses is in range; out of range the
embedding reads a record of zeros. -/
def loanAt (loans : List (LoanData α)) (i : ℕ) : LoanData α :=
  loans.getD i ⟨0, 0, 0, 0⟩

/-- The call `v.back()` on a vector of numbers (the vectors of the program are never empty
where it is called; on an empty list the embedding reads zero). -/
def back (v : List α) : α :=
  v.getLastD 0

/-- The expression `money_data[ i ].back()`: the balance currently tracked for loan `i`. -/
def moneyBack (money_data : List (List α)) (i : ℕ) : α :=
  back (money_data.getD i [])

/-- One pass of the loop `for( int i = 1; ...)` in the `principleFirst` branch of
`pickPriority`: the state is the pair `(principle, choice)`. -/
def pickPrincipleStep (loans : List (LoanData α)) (st : α × ℕ) (c : ℕ) : α × ℕ :=
  if (loanAt loans c).principle < st.1 then ((loanAt loans c).principle, c) else st

/-- One pass of the loop `for( int i = 1; ...)` in the `interestFirst` branch of
`pickPriority`: the state is the pair `(rate, choice)`. -/
def pickInterestStep (loans : List (LoanData α)) (st : α × ℕ) (c : ℕ) : α × ℕ :=
  if (loanAt loans c).mpr > st.1 then ((loanAt loans c).mpr, c) else st

/-- The method `MainWindow::pickPriority`, with the members `method` and `loans` it reads
passed as arguments.  The loops run over `choices[ 1 ]`, ..., `choices[ size - 1 ]`. -/
def pickPriority (method : PayMethod) (loans : List (LoanData α)) (choices : List ℕ) : ℕ :=
  match choices with
  | [] => 0
  | c0 :: rest =>
    match method with
    | PayMethod.principleFirst =>
      (rest.foldl (pickPrincipleStep loans) ((loanAt loans c0).principle, c0)).2
    | PayMethod.interestFirst =>
      (rest.foldl (pickInterestStep loans) ((loanAt loans c0).mpr, c0)).2

/-- The loop `for( int i = 0; i < unpaid.size(); ++i )` that removes paid loans, from the
index `i` on: `unpaid.remove( i )` erases position `i`, and the index is incremented after
every pass, also after a removal. -/
def removePaidFrom (money_data : List (List α)) (i : ℕ) (unpaid : List ℕ) : List ℕ :=
  if i < unpaid.length then
    if moneyBack money_data (unpaid.getD i 0) < 1 / 100 then
      removePaidFrom money_data (i + 1) (unpaid.eraseIdx i)
    else
      removePaidFrom money_data (i + 1) unpaid
  else
    unpaid
termination_by unpaid.length - i
decreasing_by
  all_goals simp_wf
  all_goals (try rw [List.length_eraseIdx])
  all_goals (try split)
  all_goals omega

/-- The whole removal pass at the end of a step of `refreshPlot`. -/
def removePaid (money_data : List (List α)) (unpaid : List ℕ) : List ℕ :=
  removePaidFrom money_data 0 unpaid

/-- Three loan records with rates of 1, 2 and 2 percent a month and principals 900, 500
and 500, used as an example for the selection. -/
def threeLoans : List (LoanData ℚ) :=
  [⟨900, 1 / 100, 12, 80⟩, ⟨500, 2 / 100, 12, 48⟩, ⟨500, 2 / 100, 24, 27⟩]

end Selection

/-! ## Loan formulas -/

noncomputable section Formulas

/-- Division of doubles: dividing by zero gives no finite number. -/
def fdiv (x y : ℝ) : Option ℝ :=
  if y = 0 then none else some (x / y)

/-- The function `std::log`: finite exactly on the positive numbers. -/
def flog (x : ℝ) : Option ℝ :=
  if 0 < x then some (Real.log x) else none

/-- The function `calculateMinimumPayment`. -/
def calculateMinimumPayment (principle mpr : ℝ) (period : ℕ) : Option ℝ := do
  let minimum_factor ← fdiv mpr (1 - Real.exp (-mpr * (period : ℝ)))
  let minimum := minimum_factor * principle
  pure (((⌈100 * minimum⌉ : ℤ) : ℝ) / 100)

/-- The function `calculatePayoffTime`. -/
def calculatePayoffTime (principle mpr payment : ℝ) : Option ℝ := do
  let quotient ← fdiv payment (payment - mpr * principle)
  let logarithm ← flog quotient
  fdiv logarithm mpr

/-- The function `updatePrinciple`. -/
def updatePrinciple (principle mpr payment time : ℝ) : Option ℝ := do
  let exponential := Real.exp (mpr * time)
  let ratio ← fdiv payment mpr
  let next := principle * exponential + ratio * (1 - exponential)
  pure (if next < 1 / 100 then 0 else next)

/-- The data part of `MainWindow::addLoan`: the record built from the three entry fields
(principal, APR in percent, period in months). -/
def addLoan (principle apr : ℝ) (period : ℕ) : Option (LoanData ℝ) := do
  let mpr := apr / 1200
  let minimum ← calculateMinimumPayment principle mpr period
  pure ⟨principle, mpr, period, minimum⟩

end Formulas

/-! ## Simulation loop (`MainWindow::refreshPlot`) -/

noncomputable section Simulation

/-- The three vectors the loop of `refreshPlot` works on. -/
structure SimState where
  month_data : List ℝ
  money_data : List (List ℝ)
  unpaid : List ℕ

/-- The loop `for( auto i : unpaid ) extra -= loans[ i ].minimum`, started at `payment`. -/
def extraMoney (loans : List (LoanData ℝ)) (payment : ℝ) (unpaid : List ℕ) : ℝ :=
  unpaid.foldl (fun extra i => extra - (loanAt loans i).minimum) payment

/-- The local `current_pay` of both inner loops: the minimum, plus `extra` for the
priority loan. -/
def currentPay (loans : List (LoanData ℝ)) (priority : ℕ) (extra : ℝ) (i : ℕ) : ℝ :=
  if i = priority then (loanAt loans i).minimum + extra else (loanAt loans i).minimum

/-- One pass of the loop that looks for the next payoff; the state is `next_payoff`. -/
def payoffStep (loans : List (LoanData ℝ)) (money_data : List (List ℝ)) (priority : ℕ)
    (extra : ℝ) (next_payoff : ℝ) (i : ℕ) : Option ℝ := do
  let payoff ← calculatePayoffTime (moneyBack money_data i) (loanAt loans i).mpr
    (currentPay loans priority extra i)
  pure (if payoff < next_payoff then payoff + 1 / 10000 else next_payoff)

/-- The loop that looks for the next payoff, started at `next_payoff = 2`. -/
def nextPayoff (loans : List (LoanData ℝ)) (money_data : List (List ℝ)) (priority : ℕ)
    (extra : ℝ) (unpaid : List ℕ) : Option ℝ :=
  unpaid.foldlM (payoffStep loans money_data priority extra) 2

/-- The choice of the time step: `next_payoff` when it is below one month, else one month. -/
def pickStep (next_payoff : ℝ) : ℝ :=
  if next_payoff < 1 then next_payoff else 1

/-- One pass of the loop that updates the balances; the state is `money_data`. -/
def updateStep (loans : List (LoanData ℝ)) (priority : ℕ) (extra step : ℝ)
    (money_data : List (List ℝ)) (i : ℕ) : Option (List (List ℝ)) := do
  let next_money ← updatePrinciple (moneyBack money_data i) (loanAt loans i).mpr
    (currentPay loans priority extra i) step
  pure (money_data.set i (money_data.getD i [] ++ [next_money]))

/-- The loop that updates the balances of the unpaid loans. -/
def updateData (loans : List (LoanData ℝ)) (priority : ℕ) (extra step : ℝ)
    (unpaid : List ℕ) (money_data : List (List ℝ)) : Option (List (List ℝ)) :=
  unpaid.foldlM (updateStep loans priority extra step) money_data

/-- The time step chosen by one pass of the `while` loop in the state `s`: the value of the
local `step` of `loopBody`. -/
def stepOf (method : PayMethod) (loans : List (LoanData ℝ)) (payment : ℝ) (s : SimState) :
    Option ℝ := do
  let priority := pickPriority method loans s.unpaid
  let extra := extraMoney loans payment s.unpaid
  let next_payoff ← nextPayoff loans s.money_data priority extra s.unpaid
  pure (pickStep next_payoff)

/-- The body of the loop `while( unpaid.size() > 0 )`. -/
def loopBody (method : PayMethod) (loans : List (LoanData ℝ)) (payment : ℝ) (s : SimState) :
    Option SimState := do
  let priority := pickPriority method loans s.unpaid
  let extra := extraMoney loans payment s.unpaid
  let next_payoff ← nextPayoff loans s.money_data priority extra s.unpaid
  let step := pickStep next_payoff
  let month_data := s.month_data ++ [back s.month_data + step]
  let money_data ← updateData loans priority extra step s.unpaid s.money_data
  pure ⟨month_data, money_data, removePaid money_data s.unpaid⟩

/-- The sum `total_minimum` computed at the start of `refreshPlot`. -/
def totalMinimum (loans : List (LoanData ℝ)) : ℝ :=
  loans.foldl (fun total loan_data => total + loan_data.minimum) 0

/-- The payment after the floor adjustment at the start of `refreshPlot`. -/
def flooredPayment (loans : List (LoanData ℝ)) (payment : ℝ) : ℝ :=
  if payment < totalMinimum loans then totalMinimum loans else payment

/-- The state before the first pass of the loop: every loan unpaid, time zero, every
series holding the loan's principal. -/
def initialState (loans : List (LoanData ℝ)) : SimState :=
  ⟨[0], loans.map (fun loan => [loan.principle]), List.range loans.length⟩

/-! ## Concrete loan lists used in the examples -/

/-- Two loans at 12 percent a year over one month, of 16 and of 9, as built by `addLoan`. -/
def shortLoans : List (LoanData ℝ) :=
  [⟨16, 1 / 100, 1, 1609 / 100⟩, ⟨9, 1 / 100, 1, 905 / 100⟩]

/-- Two loans at 12 percent a year, of 1000 over 12 months and of 1500 over 2 months, as
built by `addLoan`. -/
def mixedLoans : List (LoanData ℝ) :=
  [⟨1000, 1 / 100, 12, 8844 / 100⟩, ⟨1500, 1 / 100, 2, 75753 / 100⟩]

end Simulation

/-! ## Facts about the loan formulas in exact arithmetic -/

section FormulaFacts

theorem fdiv_of_ne (x : ℝ) {y : ℝ} (h : y ≠ 0) : fdiv x y = some (x / y) := by
  simp [fdiv, h]

theorem flog_of_pos {x : ℝ} (h : 0 < x) : flog x = some (Real.log x) := by
  simp [flog, h]

/-- With a non-zero rate `updatePrinciple` is the closed formula followed by the clamp. -/
theorem updatePrinciple_of_ne (principle payment time : ℝ) {mpr : ℝ} (h : mpr ≠ 0) :
    updatePrinciple principle mpr payment time =
      some (if principle * Real.exp (mpr * time) + payment / mpr * (1 - Real.exp (mpr * time))
          < 1 / 100 then 0
        else principle * Real.exp (mpr * time)
          + payment / mpr * (1 - Real.exp (mpr * time))) := by
  simp [updatePrinciple, fdiv_of_ne _ h]

/-- In exact arithmetic, with a positive rate and a period of at least one month the minimum
payment is the closed formula rounded up to the cent. -/
theorem calculateMinimumPayment_of_pos (principle : ℝ) {mpr : ℝ} {period : ℕ}
    (hr : 0 < mpr) (hn : 1 ≤ period) :
    calculateMinimumPayment principle mpr period =
      some (((⌈100 * (mpr / (1 - Real.exp (-mpr * (period : ℝ))) * principle)⌉ : ℤ) : ℝ)
        / 100) := by
  have hn' : (0 : ℝ) < period := by exact_mod_cast hn
  have hlt : Real.exp (-mpr * (period : ℝ)) < 1 := by
    rw [Real.exp_lt_one_iff]
    nlinarith
  have hne : (1 - Real.exp (-mpr * (period : ℝ))) ≠ 0 := by linarith
  rw [calculateMinimumPayment, fdiv_of_ne _ hne]
  rfl

/-- In exact arithmetic, when the payment exceeds the interest on a non-negative balance the
payoff time is the closed formula. -/
theorem calculatePayoffTime_of_gt {principle mpr payment : ℝ} (hr : 0 < mpr)
    (hb : 0 ≤ principle) (h : mpr * principle < payment) :
    calculatePayoffTime principle mpr payment =
      some (Real.log (payment / (payment - mpr * principle)) / mpr) := by
  have hd : 0 < payment - mpr * principle := by linarith
  have hpay : 0 < payment := lt_of_le_of_lt (mul_nonneg hr.le hb) h
  have hq : 0 < payment / (payment - mpr * principle) := div_pos hpay hd
  simp [calculatePayoffTime, fdiv_of_ne _ hd.ne', flog_of_pos hq, fdiv_of_ne _ hr.ne']

/-- The closed formula of `updatePrinciple`, written as a distance below the balance. -/
theorem next_eq (principle mpr payment time : ℝ) (h : mpr ≠ 0) :
    principle * Real.exp (mpr * time) + payment / mpr * (1 - Real.exp (mpr * time)) =
      principle - (payment - mpr * principle) / mpr * (Real.exp (mpr * time) - 1) := by
  field_simp
  ring

end FormulaFacts

/-- Bounds on `exp (-0.12)` from the first five terms of the exponential series. -/
theorem exp_neg_twelve_hundredths_bounds :
    (886920 : ℝ) / 1000000 < Real.exp (-(3 / 25)) ∧
      Real.exp (-(3 / 25)) < 886921 / 1000000 := by
  have hx : |(-(3 / 25) : ℝ)| ≤ 1 := by
    rw [abs_le]
    constructor <;> norm_num
  have h := Real.exp_bound hx (n := 5) (by norm_num)
  have habs : |(-(3 / 25) : ℝ)| = 3 / 25 := by
    rw [abs_neg, abs_of_pos (by norm_num)]
  rw [habs] at h
  simp only [Finset.sum_range_succ, Finset.sum_range_zero, Nat.factorial, Nat.succ_eq_add_one]
    at h
  norm_num at h
  rw [abs_le] at h
  constructor <;> linarith [h.1, h.2]

/-- The minimum payment of the loan of 1000 at one percent a month over twelve months. -/
theorem minimum_of_scenario_one :
    calculateMinimumPayment 1000 (1 / 100) 12 = some (8844 / 100) := by
  rw [calculateMinimumPayment_of_pos 1000 (by norm_num) (by norm_num)]
  have he : (-(1 / 100 : ℝ) * ((12 : ℕ) : ℝ)) = -(3 / 25) := by norm_num
  rw [he]
  obtain ⟨hlo, hhi⟩ := exp_neg_twelve_hundredths_bounds
  set E := Real.exp (-(3 / 25)) with hE
  have hd : 0 < 1 - E := by linarith
  have hceil : ⌈100 * (1 / 100 / (1 - E) * 1000)⌉ = (8844 : ℤ) := by
    rw [Int.ceil_eq_iff]
    have hval : 100 * (1 / 100 / (1 - E) * 1000) = 1000 / (1 - E) := by
      field_simp
      ring
    rw [hval]
    constructor
    · rw [lt_div_iff₀ hd]
      push_cast
      linarith
    · rw [div_le_iff₀ hd]
      push_cast
      linarith
  rw [hceil]
  norm_num

/-- Claim C3, amended. End-to-end scenario 1: the loan with principal 1000, annual rate 12
percent and period 12 gets the monthly rate 0.01 and the minimum payment
1000 * 0.01 / (1 - exp(-0.12)) rounded up to the cent, which is 88.44. -/
theorem scenario_one_minimum :
    addLoan 1000 12 12 = some ⟨1000, 1 / 100, 12, 8844 / 100⟩ ∧
      calculateMinimumPayment 1000 (1 / 100) 12 = some (8844 / 100) := by
  refine ⟨?_, minimum_of_scenario_one⟩
  have h : (12 : ℝ) / 1200 = 1 / 100 := by norm_num
  simp only [addLoan, h, minimum_of_scenario_one]
  rfl

/-- Claim C3 as stated fails: the minimum payment of scenario 1 is not 88.85. -/
theorem scenario_one_not_8885 :
    calculateMinimumPayment 1000 (12 / 1200) 12 ≠ some (8885 / 100) := by
  have h : (12 : ℝ) / 1200 = 1 / 100 := by norm_num
  rw [h, minimum_of_scenario_one]
  intro hc
  have := Option.some.inj hc
  norm_num at this

/-- Claim C4, amended. With a monthly rate of zero no loan formula takes a special case:
each of them divides by zero and returns no finite number, for every principal, period,
payment and elapsed time. -/
theorem zero_rate_not_finite (principal payment time : ℝ) (n : ℕ) :
    calculateMinimumPayment principal 0 n = none ∧
      calculatePayoffTime principal 0 payment = none ∧
      updatePrinciple principal 0 payment time = none := by
  refine ⟨?_, ?_, ?_⟩
  · simp [calculateMinimumPayment, fdiv]
  · unfold calculatePayoffTime
    by_cases hp : payment = 0
    · simp [fdiv, hp]
    · simp [fdiv, flog, hp]
  · simp [updatePrinciple, fdiv]

/-- Claim C4 as stated fails: at rate zero the payoff time of a principal of 1200 paid 100
a month is not 1200 / 100, the minimum payment over 12 months is not 1200 / 12 and the
balance after 3 months is not 1200 - 100 * 3. -/
theorem zero_rate_not_linear :
    calculatePayoffTime 1200 0 100 ≠ some (1200 / 100) ∧
      calculateMinimumPayment 1200 0 12 ≠
        some (((⌈100 * ((1200 : ℝ) / 12)⌉ : ℤ) : ℝ) / 100) ∧
      updatePrinciple 1200 0 100 3 ≠ some (1200 - 100 * 3) := by
  have hm : calculateMinimumPayment 1200 0 12 = none := by
    simp [calculateMinimumPayment, fdiv]
  have ht : calculatePayoffTime 1200 0 100 = none := by
    simp [calculatePayoffTime, fdiv, flog]
  have hu : updatePrinciple 1200 0 100 3 = none := by
    simp [updatePrinciple, fdiv]
  rw [hm, ht, hu]
  simp

/-! ## Facts about `pickPriority` -/

section SelectionFacts

variable {α : Type} [LinearOrderedField α]

/-- The selection loop of `pickPriority` in general form: the state `(key p, p)` is replaced
by `(key c, c)` when `key c` beats it.  After the loop the chosen element sits at some
position of the list read so far, nothing in the list beats it, and it beats everything
before its position. -/
theorem selection_fold {β : Type} (r : β → β → Prop) [DecidableRel r] (key : ℕ → β)
    (hasym : ∀ a b, r a b → ¬ r b a) (htr : ∀ a b c, ¬ r a b → r c b → r c a)
    (rest : List ℕ) :
    ∀ (pre : List ℕ) (p k : ℕ), pre[k]? = some p →
      (∀ x ∈ pre, ¬ r (key x) (key p)) → (∀ x ∈ pre.take k, r (key p) (key x)) →
      ∃ k', (pre ++ rest)[k']? =
          some (rest.foldl (fun st c => if r (key c) st.1 then (key c, c) else st)
            (key p, p)).2 ∧
        (rest.foldl (fun st c => if r (key c) st.1 then (key c, c) else st) (key p, p)).1 =
          key (rest.foldl (fun st c => if r (key c) st.1 then (key c, c) else st)
            (key p, p)).2 ∧
        (∀ x ∈ pre ++ rest, ¬ r (key x)
          (key (rest.foldl (fun st c => if r (key c) st.1 then (key c, c) else st)
            (key p, p)).2)) ∧
        (∀ x ∈ (pre ++ rest).take k', r
          (key (rest.foldl (fun st c => if r (key c) st.1 then (key c, c) else st)
            (key p, p)).2) (key x)) := by
  have hirr : ∀ a, ¬ r a a := fun a h => hasym a a h h
  induction rest with
  | nil =>
    intro pre p k hk hall hbefore
    exact ⟨k, by simpa using hk, rfl, by simpa using hall, by simpa using hbefore⟩
  | cons c rest ih =>
    intro pre p k hk hall hbefore
    have hklt : k < pre.length := by
      by_contra hge
      rw [List.getElem?_eq_none (by omega)] at hk
      exact absurd hk (by simp)
    rw [List.foldl_cons]
    have happ : pre ++ c :: rest = (pre ++ [c]) ++ rest := by simp
    rw [happ]
    by_cases hc : r (key c) (key p)
    · rw [if_pos hc]
      apply ih (pre ++ [c]) c pre.length
      · simp
      · intro x hx
        rcases List.mem_append.mp hx with hx | hx
        · exact hasym _ _ (htr _ _ _ (hall x hx) hc)
        · have : x = c := by simpa using hx
          rw [this]
          exact hirr _
      · intro x hx
        rw [List.take_left'] at hx
        · exact htr _ _ _ (hall x hx) hc
        · rfl
    · rw [if_neg hc]
      apply ih (pre ++ [c]) p k
      · rw [List.getElem?_append_left hklt]
        exact hk
      · intro x hx
        rcases List.mem_append.mp hx with hx | hx
        · exact hall x hx
        · have : x = c := by simpa using hx
          rw [this]
          exact hc
      · intro x hx
        rw [List.take_append_of_le_length hklt.le] at hx
        exact hbefore x hx

/-- Claim C6. Under `interestFirst`, for a non-empty list of open loans `pickPriority`
returns the element at some position of the list; its monthly rate is at least the rate of
every loan of the list and strictly above the rate of every loan at an earlier position. -/
theorem interestFirst_selection (loans : List (LoanData α)) (choices : List ℕ)
    (h : choices ≠ []) :
    ∃ k, choices[k]? = some (pickPriority PayMethod.interestFirst loans choices) ∧
      (∀ c ∈ choices, (loanAt loans c).mpr ≤
        (loanAt loans (pickPriority PayMethod.interestFirst loans choices)).mpr) ∧
      (∀ c ∈ choices.take k, (loanAt loans c).mpr <
        (loanAt loans (pickPriority PayMethod.interestFirst loans choices)).mpr) := by
  cases choices with
  | nil => exact absurd rfl h
  | cons c0 rest =>
    obtain ⟨k, hk, -, hall, hbefore⟩ := selection_fold (fun a b : α => a > b)
      (fun c => (loanAt loans c).mpr) (fun a b hab hba => lt_asymm hab hba)
      (fun a b c hab hcb => lt_of_le_of_lt (not_lt.mp hab) hcb) rest [c0] c0 0 rfl
      (by simp) (by simp)
    refine ⟨k, hk, fun c hc => ?_, fun c hc => ?_⟩
    · exact not_lt.mp (hall c hc)
    · exact hbefore c hc

/-- Witness for claim C6 on three loans with rates 1, 2 and 2 percent. -/
theorem interestFirst_selection_witness :
    ([0, 1, 2] : List ℕ) ≠ [] ∧
    ∃ k, ([0, 1, 2] : List ℕ)[k]? =
        some (pickPriority PayMethod.interestFirst threeLoans [0, 1, 2]) ∧
      (∀ c ∈ ([0, 1, 2] : List ℕ), (loanAt threeLoans c).mpr ≤
        (loanAt threeLoans (pickPriority PayMethod.interestFirst threeLoans [0, 1, 2])).mpr) ∧
      (∀ c ∈ ([0, 1, 2] : List ℕ).take k, (loanAt threeLoans c).mpr <
        (loanAt threeLoans (pickPriority PayMethod.interestFirst threeLoans [0, 1, 2])).mpr) :=
  ⟨by simp, interestFirst_selection threeLoans [0, 1, 2] (by simp)⟩

/-- Claim C5, amended. Under `principleFirst`, for a non-empty list of open loans
`pickPriority` returns the element at some position of the list; the principal stored in
its loan record (the field `principle` of `loans`, which the simulation never changes) is
at most that of every loan of the list and strictly below that of every loan at an earlier
position.  The balances tracked in `money_data` play no part. -/
theorem principleFirst_selection (loans : List (LoanData α)) (choices : List ℕ)
    (h : choices ≠ []) :
    ∃ k, choices[k]? = some (pickPriority PayMethod.principleFirst loans choices) ∧
      (∀ c ∈ choices,
        (loanAt loans (pickPriority PayMethod.principleFirst loans choices)).principle ≤
          (loanAt loans c).principle) ∧
      (∀ c ∈ choices.take k,
        (loanAt loans (pickPriority PayMethod.principleFirst loans choices)).principle <
          (loanAt loans c).principle) := by
  cases choices with
  | nil => exact absurd rfl h
  | cons c0 rest =>
    obtain ⟨k, hk, -, hall, hbefore⟩ := selection_fold (fun a b : α => a < b)
      (fun c => (loanAt loans c).principle) (fun a b hab hba => lt_asymm hab hba)
      (fun a b c hab hcb => lt_of_lt_of_le hcb (not_lt.mp hab)) rest [c0] c0 0 rfl
      (by simp) (by simp)
    refine ⟨k, hk, fun c hc => ?_, fun c hc => ?_⟩
    · exact not_lt.mp (hall c hc)
    · exact hbefore c hc

end SelectionFacts

/-! ## Facts about the removal pass -/

section RemovalFacts

variable {α : Type} [LinearOrderedField α]

/-- The removal pass on two adjacent paid loans: the second one stays in the list. -/
theorem removePaid_two_paid (money_data : List (List α)) (a b : ℕ)
    (ha : moneyBack money_data a < 1 / 100) :
    removePaid money_data [a, b] = [b] := by
  rw [removePaid, removePaidFrom, if_pos (by simp)]
  simp only [List.getD_cons_zero]
  rw [if_pos ha, removePaidFrom, if_neg (by simp)]
  rfl

end RemovalFacts

/-! ## Facts about one step of the balance in exact arithmetic -/

section StepFacts

/-- In exact arithmetic, with a positive rate, a non-negative balance and a payment above the
interest the payoff time is a finite non-negative number. -/
theorem calculatePayoffTime_nonneg {principle mpr payment : ℝ} (hr : 0 < mpr)
    (hb : 0 ≤ principle) (h : mpr * principle < payment) :
    ∃ t, calculatePayoffTime principle mpr payment = some t ∧ 0 ≤ t := by
  refine ⟨_, calculatePayoffTime_of_gt hr hb h, ?_⟩
  have hd : 0 < payment - mpr * principle := by linarith
  apply div_nonneg _ hr.le
  apply Real.log_nonneg
  rw [le_div_iff₀ hd]
  nlinarith [mul_nonneg hr.le hb]

/-- In exact arithmetic, advancing the balance by more than the payoff time gives zero. -/
theorem updatePrinciple_after_payoff {principle mpr payment time t : ℝ} (hr : 0 < mpr)
    (hb : 0 ≤ principle) (h : mpr * principle < payment)
    (ht : calculatePayoffTime principle mpr payment = some t) (hlt : t < time) :
    updatePrinciple principle mpr payment time = some 0 := by
  rw [calculatePayoffTime_of_gt hr hb h] at ht
  have ht' := Option.some.inj ht
  have hd : 0 < payment - mpr * principle := by linarith
  have hpos : 0 < payment := lt_of_le_of_lt (mul_nonneg hr.le hb) h
  have hq : 0 < payment / (payment - mpr * principle) := div_pos hpos hd
  have hexp : Real.exp (mpr * t) = payment / (payment - mpr * principle) := by
    rw [← ht', mul_div_cancel₀ _ hr.ne', Real.exp_log hq]
  have hlt' : Real.exp (mpr * t) < Real.exp (mpr * time) := by
    rw [Real.exp_lt_exp]
    exact mul_lt_mul_of_pos_left hlt hr
  rw [hexp] at hlt'
  have hzero : principle - (payment - mpr * principle) / mpr *
      (payment / (payment - mpr * principle) - 1) = 0 := by
    field_simp
    ring
  have hc : 0 < (payment - mpr * principle) / mpr := div_pos hd hr
  have hneg : principle - (payment - mpr * principle) / mpr * (Real.exp (mpr * time) - 1)
      < 0 := by
    have := mul_lt_mul_of_pos_left (sub_lt_sub_right hlt' 1) hc
    linarith
  rw [updatePrinciple_of_ne _ _ _ hr.ne', next_eq _ _ _ _ hr.ne', if_pos (by linarith)]

/-- In exact arithmetic, the payoff time is at least the number of payments that make up the
balance. -/
theorem le_calculatePayoffTime {principle mpr payment t : ℝ} (hr : 0 < mpr)
    (hb : 0 ≤ principle) (h : mpr * principle < payment)
    (ht : calculatePayoffTime principle mpr payment = some t) :
    principle / payment ≤ t := by
  rw [calculatePayoffTime_of_gt hr hb h] at ht
  have ht' := Option.some.inj ht
  have hd : 0 < payment - mpr * principle := by linarith
  have hpos : 0 < payment := lt_of_le_of_lt (mul_nonneg hr.le hb) h
  have hq : 0 < payment / (payment - mpr * principle) := div_pos hpos hd
  have hlog := Real.one_sub_inv_le_log_of_pos hq
  rw [inv_div] at hlog
  rw [← ht', le_div_iff₀ hr]
  have e : principle / payment * mpr = 1 - (payment - mpr * principle) / payment := by
    field_simp
    ring
  rw [e]
  exact hlog

end StepFacts

/-! ## Facts about the inner loops of `refreshPlot` in exact arithmetic -/

section LoopFacts

/-- The loop that looks for the next payoff: when every payoff time is a finite number the
loop ends with a finite `next_payoff`, which is either its start value or the payoff time
of an open loan plus the small extra step. -/
theorem foldlM_payoffStep (loans : List (LoanData ℝ)) (money_data : List (List ℝ))
    (priority : ℕ) (extra : ℝ) (unpaid : List ℕ)
    (h : ∀ i ∈ unpaid, ∃ t, calculatePayoffTime (moneyBack money_data i) (loanAt loans i).mpr
      (currentPay loans priority extra i) = some t) :
    ∀ start : ℝ, ∃ np, unpaid.foldlM (payoffStep loans money_data priority extra) start
        = some np ∧
      (np = start ∨ ∃ i ∈ unpaid, ∃ t, calculatePayoffTime (moneyBack money_data i)
        (loanAt loans i).mpr (currentPay loans priority extra i) = some t ∧
          np = t + 1 / 10000) := by
  induction unpaid with
  | nil =>
    intro start
    exact ⟨start, rfl, Or.inl rfl⟩
  | cons a l ih =>
    intro start
    obtain ⟨t, ht⟩ := h a (List.mem_cons_self _ _)
    have hl : ∀ i ∈ l, ∃ t, calculatePayoffTime (moneyBack money_data i) (loanAt loans i).mpr
        (currentPay loans priority extra i) = some t :=
      fun i hi => h i (List.mem_cons_of_mem _ hi)
    have hstep : payoffStep loans money_data priority extra start a =
        some (if t < start then t + 1 / 10000 else start) := by
      simp [payoffStep, ht]
    obtain ⟨np, hnp, hcase⟩ := ih hl (if t < start then t + 1 / 10000 else start)
    refine ⟨np, ?_, ?_⟩
    · rw [List.foldlM_cons, hstep]
      exact hnp
    · rcases hcase with hc | ⟨i, hi, t', ht', hnp'⟩
      · by_cases hlt : t < start
        · rw [if_pos hlt] at hc
          exact Or.inr ⟨a, List.mem_cons_self _ _, t, ht, hc⟩
        · rw [if_neg hlt] at hc
          exact Or.inl hc
      · exact Or.inr ⟨i, List.mem_cons_of_mem _ hi, t', ht', hnp'⟩

/-- The body of the loop in terms of the time step it chooses. -/
theorem loopBody_eq (method : PayMethod) (loans : List (LoanData ℝ)) (payment : ℝ)
    (s : SimState) :
    loopBody method loans payment s =
      (stepOf method loans payment s).bind (fun step =>
        (updateData loans (pickPriority method loans s.unpaid)
          (extraMoney loans payment s.unpaid) step s.unpaid s.money_data).bind
          (fun money_data => some ⟨s.month_data ++ [back s.month_data + step], money_data,
            removePaid money_data s.unpaid⟩)) := by
  simp only [loopBody, stepOf, Option.bind_eq_bind, Option.pure_def]
  cases nextPayoff loans s.money_data (pickPriority method loans s.unpaid)
    (extraMoney loans payment s.unpaid) s.unpaid <;> rfl

end LoopFacts

/-! ## Concrete runs -/

section ConcreteRuns

/-- The minimum payment from bounds on the exact amortising payment. -/
theorem minimum_of_bounds (principle mpr : ℝ) (period : ℕ) (hr : 0 < mpr)
    (hn : 1 ≤ period) (cents : ℤ)
    (hlo : ((cents : ℝ) - 1) / 100 < mpr / (1 - Real.exp (-mpr * (period : ℝ))) * principle)
    (hhi : mpr / (1 - Real.exp (-mpr * (period : ℝ))) * principle ≤ (cents : ℝ) / 100) :
    calculateMinimumPayment principle mpr period = some ((cents : ℝ) / 100) := by
  rw [calculateMinimumPayment_of_pos principle hr hn]
  have hceil : ⌈100 * (mpr / (1 - Real.exp (-mpr * (period : ℝ))) * principle)⌉ = cents := by
    rw [Int.ceil_eq_iff]
    constructor <;> linarith
  rw [hceil]

/-- Bounds on `exp (-0.01)` from the first four terms of the exponential series. -/
theorem exp_neg_hundredth_bounds :
    (99004983 : ℝ) / 100000000 < Real.exp (-(1 / 100)) ∧
      Real.exp (-(1 / 100)) < 99004984 / 100000000 := by
  have hx : |(-(1 / 100) : ℝ)| ≤ 1 := by
    rw [abs_le]
    constructor <;> norm_num
  have h := Real.exp_bound hx (n := 4) (by norm_num)
  have habs : |(-(1 / 100) : ℝ)| = 1 / 100 := by
    rw [abs_neg, abs_of_pos (by norm_num)]
  rw [habs] at h
  simp only [Finset.sum_range_succ, Finset.sum_range_zero, Nat.factorial, Nat.succ_eq_add_one]
    at h
  norm_num at h
  rw [abs_le] at h
  constructor <;> linarith [h.1, h.2]

/-- Bounds on `exp (-0.02)` from the first four terms of the exponential series. -/
theorem exp_neg_fiftieth_bounds :
    (98019865 : ℝ) / 100000000 < Real.exp (-(1 / 50)) ∧
      Real.exp (-(1 / 50)) < 98019868 / 100000000 := by
  have hx : |(-(1 / 50) : ℝ)| ≤ 1 := by
    rw [abs_le]
    constructor <;> norm_num
  have h := Real.exp_bound hx (n := 4) (by norm_num)
  have habs : |(-(1 / 50) : ℝ)| = 1 / 50 := by
    rw [abs_neg, abs_of_pos (by norm_num)]
  rw [habs] at h
  simp only [Finset.sum_range_succ, Finset.sum_range_zero, Nat.factorial, Nat.succ_eq_add_one]
    at h
  norm_num at h
  rw [abs_le] at h
  constructor <;> linarith [h.1, h.2]

/-- Bounds on `exp 0.01`. -/
theorem exp_hundredth_bounds :
    (101005 : ℝ) / 100000 < Real.exp (1 / 100) ∧ Real.exp (1 / 100) < 101006 / 100000 := by
  obtain ⟨hlo, hhi⟩ := exp_neg_hundredth_bounds
  have hinv : Real.exp (1 / 100) = (Real.exp (-(1 / 100)))⁻¹ := by
    rw [Real.exp_neg, inv_inv]
  have hpos : 0 < Real.exp (-(1 / 100)) := Real.exp_pos _
  rw [hinv]
  constructor
  · rw [lt_inv_comm₀ (by norm_num) hpos]
    exact lt_of_lt_of_le hhi (by norm_num)
  · rw [inv_lt_comm₀ hpos (by norm_num)]
    exact lt_of_le_of_lt (by norm_num) hlo

theorem minimum_of_sixteen : calculateMinimumPayment 16 (1 / 100) 1 = some (1609 / 100) := by
  obtain ⟨hlo, hhi⟩ := exp_neg_hundredth_bounds
  have he : (-(1 / 100 : ℝ) * ((1 : ℕ) : ℝ)) = -(1 / 100) := by norm_num
  have hd : 0 < 1 - Real.exp (-(1 / 100)) := by linarith
  have h := minimum_of_bounds 16 (1 / 100) 1 (by norm_num) (by norm_num)
    1609 (by
      rw [he, div_mul_eq_mul_div, lt_div_iff₀ hd]
      push_cast
      linarith) (by
      rw [he, div_mul_eq_mul_div, div_le_iff₀ hd]
      push_cast
      linarith)
  simpa using h

theorem minimum_of_nine : calculateMinimumPayment 9 (1 / 100) 1 = some (905 / 100) := by
  obtain ⟨hlo, hhi⟩ := exp_neg_hundredth_bounds
  have he : (-(1 / 100 : ℝ) * ((1 : ℕ) : ℝ)) = -(1 / 100) := by norm_num
  have hd : 0 < 1 - Real.exp (-(1 / 100)) := by linarith
  have h := minimum_of_bounds 9 (1 / 100) 1 (by norm_num) (by norm_num)
    905 (by
      rw [he, div_mul_eq_mul_div, lt_div_iff₀ hd]
      push_cast
      linarith) (by
      rw [he, div_mul_eq_mul_div, div_le_iff₀ hd]
      push_cast
      linarith)
  simpa using h

theorem minimum_of_fifteen_hundred :
    calculateMinimumPayment 1500 (1 / 100) 2 = some (75753 / 100) := by
  obtain ⟨hlo, hhi⟩ := exp_neg_fiftieth_bounds
  have he : (-(1 / 100 : ℝ) * ((2 : ℕ) : ℝ)) = -(1 / 50) := by norm_num
  have hd : 0 < 1 - Real.exp (-(1 / 50)) := by linarith
  have h := minimum_of_bounds 1500 (1 / 100) 2 (by norm_num)
    (by norm_num) 75753 (by
      rw [he, div_mul_eq_mul_div, lt_div_iff₀ hd]
      push_cast
      linarith) (by
      rw [he, div_mul_eq_mul_div, div_le_iff₀ hd]
      push_cast
      linarith)
  simpa using h

end ConcreteRuns

section ShortLoansRun

theorem shortLoans_setup :
    initialState shortLoans = ⟨[0], [[16], [9]], [0, 1]⟩ ∧
      flooredPayment shortLoans 0 = 2514 / 100 ∧
      pickPriority PayMethod.principleFirst shortLoans [0, 1] = 1 ∧
      extraMoney shortLoans (2514 / 100) [0, 1] = 0 := by
  refine ⟨rfl, ?_, ?_, ?_⟩
  · simp only [flooredPayment, totalMinimum, shortLoans, List.foldl_cons, List.foldl_nil]
    norm_num
  · simp only [pickPriority, shortLoans, List.foldl_cons, List.foldl_nil, pickPrincipleStep,
      loanAt, List.getD_cons_zero, List.getD_cons_succ]
    norm_num
  · simp only [extraMoney, shortLoans, List.foldl_cons, List.foldl_nil, loanAt,
      List.getD_cons_zero, List.getD_cons_succ]
    norm_num

/-- The payoff times of the two short loans at the start: the second is later than the first
by less than the small extra step, and both are below one month by more than it. -/
theorem shortLoans_times :
    ∃ tA tB : ℝ, calculatePayoffTime 16 (1 / 100) (1609 / 100) = some tA ∧
      calculatePayoffTime 9 (1 / 100) (905 / 100) = some tB ∧
      0 ≤ tA ∧ tA < tB ∧ tB < tA + 1 / 10000 ∧ tB + 1 / 10000 < 1 := by
  have hA := @calculatePayoffTime_of_gt 16 (1 / 100) (1609 / 100) (by norm_num)
    (by norm_num) (by norm_num)
  have hB := @calculatePayoffTime_of_gt 9 (1 / 100) (905 / 100) (by norm_num)
    (by norm_num) (by norm_num)
  have hqA : (1609 / 100 : ℝ) / (1609 / 100 - 1 / 100 * 16) = 1609 / 1593 := by norm_num
  have hqB : (905 / 100 : ℝ) / (905 / 100 - 1 / 100 * 9) = 905 / 896 := by norm_num
  rw [hqA] at hA
  rw [hqB] at hB
  refine ⟨_, _, hA, hB, ?_, ?_, ?_, ?_⟩
  · apply div_nonneg _ (by norm_num)
    exact Real.log_nonneg (by norm_num)
  · apply div_lt_div_of_pos_right _ (by norm_num)
    exact Real.log_lt_log (by norm_num) (by norm_num)
  · have hdiff : Real.log (905 / 896) - Real.log (1609 / 1593) =
        Real.log ((905 / 896) / (1609 / 1593)) :=
      (Real.log_div (by norm_num) (by norm_num)).symm
    have hle := Real.log_le_sub_one_of_pos
      (by norm_num : (0 : ℝ) < (905 / 896) / (1609 / 1593))
    have hval : ((905 : ℝ) / 896) / (1609 / 1593) - 1 < 1 / 1000000 := by norm_num
    rw [div_lt_iff₀ (by norm_num : (0 : ℝ) < 1 / 100)]
    have e : (Real.log (1609 / 1593) / (1 / 100) + 1 / 10000) * (1 / 100) =
        Real.log (1609 / 1593) + 1 / 1000000 := by ring
    rw [e]
    linarith
  · have hquad := Real.quadratic_le_exp_of_nonneg (by norm_num : (0 : ℝ) ≤ 9999 / 1000000)
    have hlt : (905 : ℝ) / 896 < Real.exp (9999 / 1000000) :=
      lt_of_lt_of_le (by norm_num) hquad
    have hlog : Real.log (905 / 896) < 9999 / 1000000 := by
      rw [Real.log_lt_iff_lt_exp (by norm_num)]
      exact hlt
    have e : Real.log (905 / 896) / (1 / 100) = Real.log (905 / 896) * 100 := by ring
    rw [e]
    linarith

/-- The time step of the first pass on the two short loans, as the code computes it. -/
theorem shortLoans_step (tA tB : ℝ)
    (hA : calculatePayoffTime 16 (1 / 100) (1609 / 100) = some tA)
    (hB : calculatePayoffTime 9 (1 / 100) (905 / 100) = some tB)
    (h1 : tA < tB) (h2 : tB < tA + 1 / 10000) (h3 : tB + 1 / 10000 < 1) :
    stepOf PayMethod.principleFirst shortLoans (flooredPayment shortLoans 0)
      (initialState shortLoans) = some (tB + 1 / 10000) := by
  obtain ⟨hinit, hfloor, hprio, hextra⟩ := shortLoans_setup
  have hp0 : payoffStep shortLoans [[16], [9]] 1 0 2 0 = some (tA + 1 / 10000) := by
    have : calculatePayoffTime (moneyBack [[16], [9]] 0) (loanAt shortLoans 0).mpr
        (currentPay shortLoans 1 0 0) = some tA := by
      simpa [moneyBack, back, loanAt, shortLoans, currentPay] using hA
    simp only [payoffStep, this, Option.bind_eq_bind, Option.some_bind, Option.pure_def]
    rw [if_pos (by linarith)]
  have hp1 : payoffStep shortLoans [[16], [9]] 1 0 (tA + 1 / 10000) 1 =
      some (tB + 1 / 10000) := by
    have : calculatePayoffTime (moneyBack [[16], [9]] 1) (loanAt shortLoans 1).mpr
        (currentPay shortLoans 1 0 1) = some tB := by
      simpa [moneyBack, back, loanAt, shortLoans, currentPay] using hB
    simp only [payoffStep, this, Option.bind_eq_bind, Option.some_bind, Option.pure_def]
    rw [if_pos h2]
  simp only [stepOf, nextPayoff, hinit, hfloor, hprio, hextra, List.foldlM_cons,
    List.foldlM_nil, hp0, hp1, Option.bind_eq_bind, Option.some_bind, Option.pure_def,
    pickStep]
  rw [if_pos h3]

end ShortLoansRun

section ShortLoansClaims

/-- The two short loans are the records `addLoan` builds from the entry fields. -/
theorem shortLoans_built :
    [addLoan 16 12 1, addLoan 9 12 1] = shortLoans.map some := by
  have h : (12 : ℝ) / 1200 = 1 / 100 := by norm_num
  simp only [addLoan, h, minimum_of_sixteen, minimum_of_nine, shortLoans, List.map_cons,
    List.map_nil]
  rfl

/-- Claim C8 (defect in the code). On the two short loans the first pass of the loop takes a
time step that is larger than the smaller of one month and the smallest payoff time plus
the small extra step: the second loan's payoff time is compared with the first loan's
payoff time plus the extra step, and replaces it. -/
theorem step_exceeds_smallest_payoff :
    ∃ tA tB step : ℝ, calculatePayoffTime 16 (1 / 100) (1609 / 100) = some tA ∧
      calculatePayoffTime 9 (1 / 100) (905 / 100) = some tB ∧
      stepOf PayMethod.principleFirst shortLoans (flooredPayment shortLoans 0)
        (initialState shortLoans) = some step ∧
      min 1 (min tA tB + 1 / 10000) < step := by
  obtain ⟨tA, tB, hA, hB, h0, h1, h2, h3⟩ := shortLoans_times
  refine ⟨tA, tB, tB + 1 / 10000, hA, hB, shortLoans_step tA tB hA hB h1 h2 h3, ?_⟩
  rw [min_eq_left h1.le]
  exact lt_of_le_of_lt (min_le_right _ _) (by linarith)

/-- Claim C10 (defect in the code). On the two short loans both balances are zero after the
first pass of the loop, and the removal pass leaves the second loan in the open list. -/
theorem paid_loan_stays_open :
    ∃ s : SimState, loopBody PayMethod.principleFirst shortLoans (flooredPayment shortLoans 0)
        (initialState shortLoans) = some s ∧
      s.money_data = [[16, 0], [9, 0]] ∧ s.unpaid = [1] ∧
      moneyBack s.money_data 1 < 1 / 100 := by
  obtain ⟨tA, tB, hA, hB, h0, h1, h2, h3⟩ := shortLoans_times
  have hstep := shortLoans_step tA tB hA hB h1 h2 h3
  obtain ⟨hinit, hfloor, hprio, hextra⟩ := shortLoans_setup
  have hu0 : updateStep shortLoans 1 0 (tB + 1 / 10000) [[16], [9]] 0 =
      some [[16, 0], [9]] := by
    have := @updatePrinciple_after_payoff 16 (1 / 100) (1609 / 100) (tB + 1 / 10000) tA
      (by norm_num) (by norm_num)
      (by norm_num) hA (by linarith)
    have h' : updatePrinciple (moneyBack [[16], [9]] 0) (loanAt shortLoans 0).mpr
        (currentPay shortLoans 1 0 0) (tB + 1 / 10000) = some 0 := by
      simpa [moneyBack, back, loanAt, shortLoans, currentPay] using this
    simp only [updateStep, h', Option.bind_eq_bind, Option.some_bind, Option.pure_def]
    rfl
  have hu1 : updateStep shortLoans 1 0 (tB + 1 / 10000) [[16, 0], [9]] 1 =
      some [[16, 0], [9, 0]] := by
    have := @updatePrinciple_after_payoff 9 (1 / 100) (905 / 100) (tB + 1 / 10000) tB
      (by norm_num) (by norm_num)
      (by norm_num) hB (by linarith)
    have h' : updatePrinciple (moneyBack [[16, 0], [9]] 1) (loanAt shortLoans 1).mpr
        (currentPay shortLoans 1 0 1) (tB + 1 / 10000) = some 0 := by
      simpa [moneyBack, back, loanAt, shortLoans, currentPay] using this
    simp only [updateStep, h', Option.bind_eq_bind, Option.some_bind, Option.pure_def]
    rfl
  have hremove : removePaid ([[16, 0], [9, 0]] : List (List ℝ)) [0, 1] = [1] :=
    removePaid_two_paid _ 0 1 (by simp [moneyBack, back])
  refine ⟨⟨[0, 0 + (tB + 1 / 10000)], [[16, 0], [9, 0]], [1]⟩, ?_, rfl, rfl, ?_⟩
  · rw [loopBody_eq]
    simp only [hstep, Option.bind_eq_bind, Option.some_bind, Option.pure_def]
    simp only [hinit, hfloor, hprio, hextra, updateData, List.foldlM_cons, List.foldlM_nil,
      hu0, hu1, Option.bind_eq_bind, Option.some_bind, Option.pure_def, hremove]
    rfl
  · simp [moneyBack, back]

end ShortLoansClaims

section MixedLoansRun

/-- When no open loan has a payoff time below one month, the time step is exactly one
month. -/
theorem stepOf_eq_one (method : PayMethod) (loans : List (LoanData ℝ)) (payment : ℝ)
    (s : SimState)
    (h : ∀ i ∈ s.unpaid, ∃ t, calculatePayoffTime (moneyBack s.money_data i)
      (loanAt loans i).mpr (currentPay loans (pickPriority method loans s.unpaid)
        (extraMoney loans payment s.unpaid) i) = some t ∧ 1 ≤ t) :
    stepOf method loans payment s = some 1 := by
  obtain ⟨np, hnp, hcase⟩ := foldlM_payoffStep loans s.money_data
    (pickPriority method loans s.unpaid) (extraMoney loans payment s.unpaid) s.unpaid
    (fun i hi => (h i hi).imp fun t ht => ht.1) 2
  have hge : ¬ np < 1 := by
    rcases hcase with hc | ⟨j, hj, t, ht, hnpt⟩
    · rw [hc]
      norm_num
    · obtain ⟨t', ht', h1⟩ := h j hj
      rw [ht] at ht'
      have := Option.some.inj ht'
      linarith
  simp [stepOf, nextPayoff, hnp, pickStep, hge]

/-- The removal pass on two unpaid loans removes nothing. -/
theorem removePaid_two_unpaid (money_data : List (List ℝ)) (a b : ℕ)
    (ha : ¬ moneyBack money_data a < 1 / 100) (hb : ¬ moneyBack money_data b < 1 / 100) :
    removePaid money_data [a, b] = [a, b] := by
  rw [removePaid, removePaidFrom, if_pos (by simp)]
  simp only [List.getD_cons_zero]
  rw [if_neg ha, removePaidFrom, if_pos (by simp)]
  simp only [List.getD_cons_succ, List.getD_cons_zero]
  rw [if_neg hb, removePaidFrom, if_neg (by simp)]

theorem mixedLoans_setup :
    initialState mixedLoans = ⟨[0], [[1000], [1500]], [0, 1]⟩ ∧
      flooredPayment mixedLoans 0 = 84597 / 100 ∧
      pickPriority PayMethod.principleFirst mixedLoans [0, 1] = 0 ∧
      extraMoney mixedLoans (84597 / 100) [0, 1] = 0 := by
  refine ⟨rfl, ?_, ?_, ?_⟩
  · simp only [flooredPayment, totalMinimum, mixedLoans, List.foldl_cons, List.foldl_nil]
    norm_num
  · simp only [pickPriority, mixedLoans, List.foldl_cons, List.foldl_nil, pickPrincipleStep,
      loanAt, List.getD_cons_zero, List.getD_cons_succ]
    norm_num
  · simp only [extraMoney, mixedLoans, List.foldl_cons, List.foldl_nil, loanAt,
      List.getD_cons_zero, List.getD_cons_succ]
    norm_num

/-- The mixed loans are the records `addLoan` builds from the entry fields. -/
theorem mixedLoans_built :
    [addLoan 1000 12 12, addLoan 1500 12 2] = mixedLoans.map some := by
  have h : (12 : ℝ) / 1200 = 1 / 100 := by norm_num
  simp only [addLoan, h, minimum_of_scenario_one, minimum_of_fifteen_hundred, mixedLoans,
    List.map_cons, List.map_nil]
  rfl

/-- The first pass of the loop on the mixed loans: one month goes by, both loans stay open,
and the second loan, whose principal is the larger, ends with the smaller balance. -/
theorem mixedLoans_first_pass :
    ∃ a b : ℝ, loopBody PayMethod.principleFirst mixedLoans (flooredPayment mixedLoans 0)
        (initialState mixedLoans) = some ⟨[0, 0 + 1], [[1000, a], [1500, b]], [0, 1]⟩ ∧
      b < a := by
  obtain ⟨hinit, hfloor, hprio, hextra⟩ := mixedLoans_setup
  obtain ⟨hXlo, hXhi⟩ := exp_hundredth_bounds
  have hstep : stepOf PayMethod.principleFirst mixedLoans (flooredPayment mixedLoans 0)
      (initialState mixedLoans) = some 1 := by
    apply stepOf_eq_one
    rw [hinit, hfloor]
    simp only [hprio, hextra]
    intro i hi
    simp only [List.mem_cons, List.mem_singleton, List.not_mem_nil, or_false] at hi
    rcases hi with rfl | rfl
    · have hgt : (1 / 100 : ℝ) * 1000 < 8844 / 100 := by norm_num
      obtain ⟨t, ht, -⟩ := calculatePayoffTime_nonneg (by norm_num) (by norm_num) hgt
      have hle := le_calculatePayoffTime (by norm_num) (by norm_num) hgt ht
      refine ⟨t, ?_, le_trans (by norm_num) hle⟩
      simpa [moneyBack, back, loanAt, mixedLoans, currentPay] using ht
    · have hgt : (1 / 100 : ℝ) * 1500 < 75753 / 100 := by norm_num
      obtain ⟨t, ht, -⟩ := calculatePayoffTime_nonneg (by norm_num) (by norm_num) hgt
      have hle := le_calculatePayoffTime (by norm_num) (by norm_num) hgt ht
      refine ⟨t, ?_, le_trans (by norm_num) hle⟩
      simpa [moneyBack, back, loanAt, mixedLoans, currentPay] using ht
  set X := Real.exp (1 / 100) with hX
  have hupA : updatePrinciple 1000 (1 / 100) (8844 / 100) 1 = some (8844 - 7844 * X) := by
    rw [updatePrinciple_of_ne _ _ _ (by norm_num), mul_one, ← hX]
    have e : 1000 * X + 8844 / 100 / (1 / 100) * (1 - X) = 8844 - 7844 * X := by ring
    rw [e, if_neg (by linarith)]
  have hupB : updatePrinciple 1500 (1 / 100) (75753 / 100) 1 = some (75753 - 74253 * X) := by
    rw [updatePrinciple_of_ne _ _ _ (by norm_num), mul_one, ← hX]
    have e : 1500 * X + 75753 / 100 / (1 / 100) * (1 - X) = 75753 - 74253 * X := by ring
    rw [e, if_neg (by linarith)]
  have hu0 : updateStep mixedLoans 0 0 1 [[1000], [1500]] 0 =
      some [[1000, 8844 - 7844 * X], [1500]] := by
    have h' : updatePrinciple (moneyBack [[1000], [1500]] 0) (loanAt mixedLoans 0).mpr
        (currentPay mixedLoans 0 0 0) 1 = some (8844 - 7844 * X) := by
      simpa [moneyBack, back, loanAt, mixedLoans, currentPay] using hupA
    simp only [updateStep, h', Option.bind_eq_bind, Option.some_bind, Option.pure_def]
    rfl
  have hu1 : updateStep mixedLoans 0 0 1 [[1000, 8844 - 7844 * X], [1500]] 1 =
      some [[1000, 8844 - 7844 * X], [1500, 75753 - 74253 * X]] := by
    have h' : updatePrinciple (moneyBack [[1000, 8844 - 7844 * X], [1500]] 1)
        (loanAt mixedLoans 1).mpr (currentPay mixedLoans 0 0 1) 1 =
          some (75753 - 74253 * X) := by
      simpa [moneyBack, back, loanAt, mixedLoans, currentPay] using hupB
    simp only [updateStep, h', Option.bind_eq_bind, Option.some_bind, Option.pure_def]
    rfl
  have hremove : removePaid [[1000, 8844 - 7844 * X], [1500, 75753 - 74253 * X]] [0, 1] =
      [0, 1] := by
    apply removePaid_two_unpaid
    · simp only [moneyBack, back, List.getD_cons_zero, List.getLastD_cons, List.getLastD_nil]
      linarith
    · simp only [moneyBack, back, List.getD_cons_succ, List.getD_cons_zero,
        List.getLastD_cons, List.getLastD_nil]
      linarith
  refine ⟨8844 - 7844 * X, 75753 - 74253 * X, ?_, by linarith⟩
  rw [loopBody_eq]
  simp only [hstep, Option.bind_eq_bind, Option.some_bind, Option.pure_def]
  simp only [hinit, hfloor, hprio, hextra, updateData, List.foldlM_cons, List.foldlM_nil,
    hu0, hu1, Option.bind_eq_bind, Option.some_bind, Option.pure_def, hremove]
  rfl

/-- Claim C5 as stated fails. After the first pass of the loop on the mixed loans both loans
are open and the second one has the smaller current balance, yet under `principleFirst`
`pickPriority` chooses the first one, whose stored principal is the smaller. -/
theorem principleFirst_not_smallest_balance :
    ∃ s : SimState, loopBody PayMethod.principleFirst mixedLoans
        (flooredPayment mixedLoans 0) (initialState mixedLoans) = some s ∧
      s.unpaid = [0, 1] ∧
      pickPriority PayMethod.principleFirst mixedLoans s.unpaid = 0 ∧
      moneyBack s.money_data 1 < moneyBack s.money_data 0 := by
  obtain ⟨a, b, hbody, hlt⟩ := mixedLoans_first_pass
  refine ⟨_, hbody, rfl, mixedLoans_setup.2.2.1, ?_⟩
  simpa [moneyBack, back] using hlt

end MixedLoansRun

section MainClaims

/-- Witness for claim C5 (amended) on three loans with principals 900, 500 and 500. -/
theorem principleFirst_selection_witness :
    ([0, 1, 2] : List ℕ) ≠ [] ∧
    ∃ k, ([0, 1, 2] : List ℕ)[k]? =
        some (pickPriority PayMethod.principleFirst threeLoans [0, 1, 2]) ∧
      (∀ c ∈ ([0, 1, 2] : List ℕ),
        (loanAt threeLoans
          (pickPriority PayMethod.principleFirst threeLoans [0, 1, 2])).principle ≤
          (loanAt threeLoans c).principle) ∧
      (∀ c ∈ ([0, 1, 2] : List ℕ).take k,
        (loanAt threeLoans
          (pickPriority PayMethod.principleFirst threeLoans [0, 1, 2])).principle <
          (loanAt threeLoans c).principle) :=
  ⟨by simp, principleFirst_selection threeLoans [0, 1, 2] (by simp)⟩

end MainClaims

end LoanPayoff
